import Mathlib

/-
Verification of the regexpp AST data model (src/src/ast.ts).

The development embeds, in order:
  1. the JSON fixture value model and the sentinel encode/decode pair
     (ast.ts lines 443-481: the `fixturesData` loader's reviver and the
     `save` serializer's replacer);
  2. the typed node lattice of the AST (ast.ts lines 1-441), as mutual
     inductive types whose constructors mirror the TypeScript union types;
  3. definitions modelled from the specification for the parts of the
     repository whose code is not present in src/ (the tree builder's
     inline checks, the mode gate, the parent wiring and the
     backreference resolver), each marked `Modelled from the spec`.
-/

set_option autoImplicit false

namespace Regexpp

/-! ## JSON fixture values (ast.ts lines 443-481)

A JavaScript number occurring in a fixture is either a finite number or
`Infinity` (`Number.POSITIVE_INFINITY`, used for an unbounded quantifier
upper bound).  Finite fixture numbers are modelled as integers; the
encode/decode pair never alters a finite number, so the carrier of finite
values is irrelevant to the statements proved below. -/

inductive JNum where
  | fin (val : Int)
  | inf

/-! A JSON value as traversed by the reviver of `JSON.parse` and the
replacer of `JSON.stringify`.  Arrays and objects are given by mutual
list types so that structural recursion and induction stay elementary. -/
mutual

inductive JValue where
  | null
  | bool (b : Bool)
  | num (n : JNum)
  | str (s : String)
  | arr (elems : JArray)
  | obj (fields : JObject)

inductive JArray where
  | nil
  | cons (head : JValue) (tail : JArray)

inductive JObject where
  | nil
  | cons (key : String) (val : JValue) (tail : JObject)

end

/-- The sentinel string used by the fixture format for `Infinity`. -/
def sentinel : String := "$$Infinity"

/-! The `save` function serializes with the replacer
`(_, v) => (v === Infinity ? "$$Infinity" : v)`: `JSON.stringify` applies
it to every value at every position of the record.  `encodeV` is that
transformation on the JSON value tree. -/

mutual

def encodeV : JValue → JValue
  | .null => .null
  | .bool b => .bool b
  | .num .inf => .str sentinel
  | .num (.fin q) => .num (.fin q)
  | .str s => .str s
  | .arr elems => .arr (encodeArr elems)
  | .obj fields => .obj (encodeObj fields)

def encodeArr : JArray → JArray
  | .nil => .nil
  | .cons v rest => .cons (encodeV v) (encodeArr rest)

def encodeObj : JObject → JObject
  | .nil => .nil
  | .cons k v rest => .cons k (encodeV v) (encodeObj rest)

end

/-! The fixture loader parses with the reviver
`(_, v) => (v === "$$Infinity" ? Infinity : v)`: `JSON.parse` applies it
to every value at every position.  `decodeV` is that transformation. -/

mutual

def decodeV : JValue → JValue
  | .null => .null
  | .bool b => .bool b
  | .num n => .num n
  | .str s => if s = sentinel then .num .inf else .str s
  | .arr elems => .arr (decodeArr elems)
  | .obj fields => .obj (decodeObj fields)

def decodeArr : JArray → JArray
  | .nil => .nil
  | .cons v rest => .cons (decodeV v) (decodeArr rest)

def decodeObj : JObject → JObject
  | .nil => .nil
  | .cons k v rest => .cons k (decodeV v) (decodeObj rest)

end

/-! `hasSentinel`: whether a genuine string value equal to the sentinel
occurs anywhere in the value. -/
mutual

def hasSentinel : JValue → Bool
  | .str s => s = sentinel
  | .arr elems => hasSentinelArr elems
  | .obj fields => hasSentinelObj fields
  | _ => false

def hasSentinelArr : JArray → Bool
  | .nil => false
  | .cons v rest => hasSentinel v || hasSentinelArr rest

def hasSentinelObj : JObject → Bool
  | .nil => false
  | .cons _ v rest => hasSentinel v || hasSentinelObj rest

end

/-! Round trip lemmas. -/

mutual

theorem decode_encode : ∀ v : JValue, hasSentinel v = false →
    decodeV (encodeV v) = v
  | .null, _ => rfl
  | .bool _, _ => rfl
  | .num .inf, _ => by simp [encodeV, decodeV, sentinel]
  | .num (.fin _), _ => rfl
  | .str s, h => by
      simp only [hasSentinel, decide_eq_false_iff_not] at h
      simp [encodeV, decodeV, h]
  | .arr elems, h => by
      simp only [hasSentinel] at h
      simp [encodeV, decodeV, decode_encode_arr elems h]
  | .obj fields, h => by
      simp only [hasSentinel] at h
      simp [encodeV, decodeV, decode_encode_obj fields h]

theorem decode_encode_arr : ∀ l : JArray, hasSentinelArr l = false →
    decodeArr (encodeArr l) = l
  | .nil, _ => rfl
  | .cons v rest, h => by
      simp only [hasSentinelArr, Bool.or_eq_false_iff] at h
      simp [encodeArr, decodeArr, decode_encode v h.1,
        decode_encode_arr rest h.2]

theorem decode_encode_obj : ∀ l : JObject, hasSentinelObj l = false →
    decodeObj (encodeObj l) = l
  | .nil, _ => rfl
  | .cons k v rest, h => by
      simp only [hasSentinelObj, Bool.or_eq_false_iff] at h
      simp [encodeObj, decodeObj, decode_encode v h.1,
        decode_encode_obj rest h.2]

end

mutual

theorem decode_encode_ne : ∀ v : JValue, hasSentinel v = true →
    decodeV (encodeV v) ≠ v
  | .str s, h => by
      simp only [hasSentinel, decide_eq_true_iff] at h
      subst h
      simp [encodeV, decodeV, sentinel]
  | .arr elems, h => by
      simp only [hasSentinel] at h
      have := decode_encode_arr_ne elems h
      simp only [encodeV, decodeV]
      intro he
      exact this (by injection he)
  | .obj fields, h => by
      simp only [hasSentinel] at h
      have := decode_encode_obj_ne fields h
      simp only [encodeV, decodeV]
      intro he
      exact this (by injection he)

theorem decode_encode_arr_ne : ∀ l : JArray, hasSentinelArr l = true →
    decodeArr (encodeArr l) ≠ l
  | .cons v rest, h => by
      simp only [hasSentinelArr, Bool.or_eq_true] at h
      simp only [encodeArr, decodeArr]
      intro he
      rcases h with h | h
      · exact decode_encode_ne v h (by injection he)
      · exact decode_encode_arr_ne rest h (by injection he)

theorem decode_encode_obj_ne : ∀ l : JObject, hasSentinelObj l = true →
    decodeObj (encodeObj l) ≠ l
  | .cons k v rest, h => by
      simp only [hasSentinelObj, Bool.or_eq_true] at h
      simp only [encodeObj, decodeObj]
      intro he
      rcases h with h | h
      · exact decode_encode_ne v h (by injection he)
      · exact decode_encode_obj_ne rest h (by injection he)

end

theorem roundtrip_iff (v : JValue) :
    decodeV (encodeV v) = v ↔ hasSentinel v = false := by
  constructor
  · intro h
    by_contra hs
    exact decode_encode_ne v (by simpa using hs) h
  · exact decode_encode v

/-- C2 (counterexample): the claim "for every fixture value, encoding
followed by decoding yields the original value" fails at the concrete
fixture value consisting of the string "$$Infinity": the round trip
returns the number Infinity, not that string. -/
theorem fixture_roundtrip_universal_cex :
    ¬ decodeV (encodeV (JValue.str "$$Infinity")) = JValue.str "$$Infinity" := by
  simp [encodeV, decodeV, sentinel]

/-- C2 (amended): for every fixture value that contains no genuine string
equal to "$$Infinity", encoding (the save serialization, replacing the
value Infinity by the string "$$Infinity") followed by decoding (the load
reviver, replacing the string "$$Infinity" by Infinity) yields the
original value; in particular an unbounded quantifier bound round-trips
to Infinity and every finite number round-trips to that exact number. -/
theorem fixture_roundtrip_restricted :
    (∀ v : JValue, hasSentinel v = false → decodeV (encodeV v) = v)
    ∧ decodeV (encodeV (JValue.num .inf)) = JValue.num .inf
    ∧ (∀ q : Int, decodeV (encodeV (JValue.num (.fin q))) = JValue.num (.fin q)) :=
  ⟨decode_encode, by simp [encodeV, decodeV], fun _ => rfl⟩

/-- C10: the decode reviver maps every string value equal to "$$Infinity",
at any position in the record, to Infinity, and the encode replacer maps
every value equal to Infinity to the string "$$Infinity"; consequently
encode followed by decode is the identity exactly on values containing no
genuine string equal to "$$Infinity", and on an input that is that literal
string the round trip returns Infinity instead of the original string. -/
theorem sentinel_collision :
    (∀ s : String, s = "$$Infinity" → decodeV (JValue.str s) = JValue.num .inf)
    ∧ encodeV (JValue.num .inf) = JValue.str "$$Infinity"
    ∧ (∀ v : JValue, decodeV (encodeV v) = v ↔ hasSentinel v = false)
    ∧ decodeV (encodeV (JValue.str "$$Infinity")) = JValue.num .inf :=
  ⟨fun s hs => by simp [decodeV, sentinel, hs], rfl, roundtrip_iff,
    by simp [encodeV, decodeV, sentinel]⟩

/-! ## The node type lattice (ast.ts lines 1-441)

Each TypeScript interface becomes a structure (or a one-constructor
inductive inside a mutual block); each TypeScript union type becomes an
inductive whose constructors are the union's variants.  The `parent`
back-reference fields are cyclic and are therefore treated separately
(see the parent-wiring model below); the cross-link fields
`Backreference.resolved` and `CapturingGroup.references` are modelled by
node identifiers, following the spec's own arena design note. -/

/-- The common positional data of NodeBase (ast.ts 75-86): `start`,
`end` (named `stop` here, `end` being a Lean keyword) and `raw`. -/
structure NodeInfo where
  start : Nat
  stop : Nat
  raw : String

/-- Character (ast.ts 404-414): a resolved code point. -/
structure Character where
  info : NodeInfo
  value : Nat

/-- The kind of an EdgeAssertion (ast.ts 258-262): `"start"` for `^`,
`"end"` (named `stop` here) for `$`. -/
inductive EdgeKind where
  | start
  | stop

/-- EdgeAssertion (ast.ts 258-262). -/
structure EdgeAssertion where
  info : NodeInfo
  kind : EdgeKind

/-- WordBoundaryAssertion (ast.ts 268-273). -/
structure WordBoundaryAssertion where
  info : NodeInfo
  negate : Bool

/-- BoundaryAssertion (ast.ts 252). -/
inductive BoundaryAssertion where
  | edge (a : EdgeAssertion)
  | wordBoundary (a : WordBoundaryAssertion)

/-- The kind of an EscapeCharacterSet (ast.ts 297-307). -/
inductive EscapeKind where
  | digit
  | space
  | word

/-- EscapeCharacterSet (ast.ts 297-307): `\d`, `\s`, `\w` and negations. -/
structure EscapeCharacterSet where
  info : NodeInfo
  kind : EscapeKind
  negate : Bool

/-- UnicodePropertyCharacterSet (ast.ts 313-342): the union of
CharacterUnicodePropertyCharacterSet (`strings: false`, arbitrary
`value` and `negate`) and StringsUnicodePropertyCharacterSet
(`strings: true`, `value: null`, `negate: false` — those two fields are
pinned by the interface itself, so the variant does not carry them). -/
inductive UnicodePropertyCharacterSet where
  | charProp (info : NodeInfo) (key : String) (value : Option String) (negate : Bool)
  | stringsProp (info : NodeInfo) (key : String)

/-- The `strings` field of a UnicodePropertyCharacterSet. -/
def UnicodePropertyCharacterSet.strings : UnicodePropertyCharacterSet → Bool
  | .charProp .. => false
  | .stringsProp .. => true

/-- The `value` field of a UnicodePropertyCharacterSet. -/
def UnicodePropertyCharacterSet.value : UnicodePropertyCharacterSet → Option String
  | .charProp _ _ v _ => v
  | .stringsProp .. => none

/-- The `negate` field of a UnicodePropertyCharacterSet. -/
def UnicodePropertyCharacterSet.negate : UnicodePropertyCharacterSet → Bool
  | .charProp _ _ _ n => n
  | .stringsProp .. => false

/-- AnyCharacterSet (ast.ts 287-291): the dot. -/
structure AnyCharacterSet where
  info : NodeInfo

/-- CharacterSet (ast.ts 278-281). -/
inductive CharacterSet where
  | any (a : AnyCharacterSet)
  | escape (e : EscapeCharacterSet)
  | property (p : UnicodePropertyCharacterSet)

/-- CharacterClassRange (ast.ts 237-242). -/
structure CharacterClassRange where
  info : NodeInfo
  min : Character
  max : Character

/-- ClassRangesCharacterClassElement (ast.ts 58-62): exactly Character,
CharacterClassRange, EscapeCharacterSet, UnicodePropertyCharacterSet. -/
inductive ClassRangesCharacterClassElement where
  | character (c : Character)
  | characterClassRange (r : CharacterClassRange)
  | escape (e : EscapeCharacterSet)
  | property (p : UnicodePropertyCharacterSet)

/-- ClassRangesCharacterClass (ast.ts 217-221): `unicodeSets: false`. -/
structure ClassRangesCharacterClass where
  info : NodeInfo
  negate : Bool
  elements : List ClassRangesCharacterClassElement

/-- StringAlternative (ast.ts 129-133): elements are Characters only. -/
structure StringAlternative where
  info : NodeInfo
  elements : List Character

/-- ClassStringDisjunction (ast.ts 393-397): `\q{...}`. -/
structure ClassStringDisjunction where
  info : NodeInfo
  alternatives : List StringAlternative

/-! The Unicode-sets class layer (ast.ts 63-70, 223-231, 348-387) is
mutually recursive: a UnicodeSetsCharacterClass may contain expression
classes and nested Unicode-sets classes, and set operations take class
set operands which include both. -/
mutual

inductive UnicodeSetsCharacterClass where
  | mk (info : NodeInfo) (negate : Bool) (elements : USElements)

inductive USElements where
  | nil
  | cons (head : UnicodeSetsCharacterClassElement) (tail : USElements)

inductive UnicodeSetsCharacterClassElement where
  | character (c : Character)
  | characterClassRange (r : CharacterClassRange)
  | classStringDisjunction (d : ClassStringDisjunction)
  | escape (e : EscapeCharacterSet)
  | expressionCharacterClass (x : ExpressionCharacterClass)
  | property (p : UnicodePropertyCharacterSet)
  | unicodeSetsCharacterClass (c : UnicodeSetsCharacterClass)

inductive ExpressionCharacterClass where
  | mk (info : NodeInfo) (negate : Bool) (expression : ClassSetExpression)

inductive ClassSetExpression where
  | intersection (i : ClassIntersection)
  | subtraction (s : ClassSubtraction)

inductive ClassIntersection where
  | mk (info : NodeInfo) (left : ClassIntersectionLeft) (right : ClassSetOperand)

inductive ClassIntersectionLeft where
  | intersection (i : ClassIntersection)
  | operand (o : ClassSetOperand)

inductive ClassSubtraction where
  | mk (info : NodeInfo) (left : ClassSubtractionLeft) (right : ClassSetOperand)

inductive ClassSubtractionLeft where
  | subtraction (s : ClassSubtraction)
  | operand (o : ClassSetOperand)

inductive ClassSetOperand where
  | character (c : Character)
  | classStringDisjunction (d : ClassStringDisjunction)
  | escape (e : EscapeCharacterSet)
  | expressionCharacterClass (x : ExpressionCharacterClass)
  | property (p : UnicodePropertyCharacterSet)
  | unicodeSetsCharacterClass (c : UnicodeSetsCharacterClass)

end

/-- CharacterClass (ast.ts 203-205): the union of the two variants. -/
inductive CharacterClass where
  | classRanges (c : ClassRangesCharacterClass)
  | unicodeSets (c : UnicodeSetsCharacterClass)

/-- The `ref` field of a Backreference (ast.ts 423): number or name. -/
inductive Ref where
  | num (n : Nat)
  | name (s : String)

/-- Backreference (ast.ts 420-425).  The `resolved` field is a
non-nullable reference to a CapturingGroup in the TypeScript interface;
being a cross-link it is modelled by a node identifier. -/
structure Backreference where
  info : NodeInfo
  ref : Ref
  resolved : Nat

/-- The upper bound of a Quantifier (ast.ts 194): a number or
Number.POSITIVE_INFINITY. -/
inductive QuantMax where
  | fin (n : Nat)
  | inf

/-- Whether `min <= max` where max may be Infinity. -/
def leMax (min : Nat) : QuantMax → Bool
  | .inf => true
  | .fin m => min ≤ m

/-! The pattern layer (ast.ts 101-197): patterns, alternatives,
elements, quantifiers, groups and lookaround assertions are mutually
recursive. -/
mutual

inductive Pattern where
  | mk (info : NodeInfo) (alternatives : Alternatives)

inductive Alternatives where
  | nil
  | cons (head : DisjunctionAlternative) (tail : Alternatives)

inductive DisjunctionAlternative where
  | mk (info : NodeInfo) (elements : Elements)

inductive Elements where
  | nil
  | cons (head : Element) (tail : Elements)

inductive Element where
  | quantifiable (e : QuantifiableElement)
  | quantifier (q : Quantifier)
  | lookbehind (a : LookbehindAssertion)
  | boundary (a : BoundaryAssertion)

inductive QuantifiableElement where
  | backreference (b : Backreference)
  | capturingGroup (g : CapturingGroup)
  | character (c : Character)
  | characterClass (c : CharacterClass)
  | characterSet (s : CharacterSet)
  | expressionCharacterClass (x : ExpressionCharacterClass)
  | group (g : Group)
  | lookahead (a : LookaheadAssertion)

inductive Quantifier where
  | mk (info : NodeInfo) (min : Nat) (max : QuantMax) (greedy : Bool)
      (element : QuantifiableElement)

inductive Group where
  | mk (info : NodeInfo) (alternatives : Alternatives)

inductive CapturingGroup where
  | mk (info : NodeInfo) (name : Option String) (alternatives : Alternatives)
      (references : List Nat)

inductive LookaheadAssertion where
  | mk (info : NodeInfo) (negate : Bool) (alternatives : Alternatives)

inductive LookbehindAssertion where
  | mk (info : NodeInfo) (negate : Bool) (alternatives : Alternatives)

end

/-- The `element` field of a Quantifier (ast.ts 196). -/
def Quantifier.element : Quantifier → QuantifiableElement
  | .mk _ _ _ _ e => e

/-- The `min` field of a Quantifier (ast.ts 193). -/
def Quantifier.min : Quantifier → Nat
  | .mk _ mn _ _ _ => mn

/-- The `max` field of a Quantifier (ast.ts 194). -/
def Quantifier.max : Quantifier → QuantMax
  | .mk _ _ mx _ _ => mx

/-- The `left` field of a ClassIntersection (ast.ts 374). -/
def ClassIntersection.left : ClassIntersection → ClassIntersectionLeft
  | .mk _ l _ => l

/-- The `right` field of a ClassIntersection (ast.ts 375). -/
def ClassIntersection.right : ClassIntersection → ClassSetOperand
  | .mk _ _ r => r

/-- The `left` field of a ClassSubtraction (ast.ts 385). -/
def ClassSubtraction.left : ClassSubtraction → ClassSubtractionLeft
  | .mk _ l _ => l

/-- The `right` field of a ClassSubtraction (ast.ts 386). -/
def ClassSubtraction.right : ClassSubtraction → ClassSetOperand
  | .mk _ _ r => r

/-- Flags (ast.ts 430-441): eight independent booleans. -/
structure Flags where
  info : NodeInfo
  dotAll : Bool
  global : Bool
  hasIndices : Bool
  ignoreCase : Bool
  multiline : Bool
  sticky : Bool
  unicode : Bool
  unicodeSets : Bool

/-! ## Node kinds

Discriminants for stating which variant a node in a given slot is.  An
ElementKind names the concrete shape of an atom node sitting at an
element position (the TypeScript `type` field refined by the variant:
assertions are split by their `kind` field). -/

inductive ElementKind where
  | backreference
  | capturingGroup
  | character
  | characterClass
  | characterSet
  | expressionCharacterClass
  | group
  | lookaheadAssertion
  | lookbehindAssertion
  | edgeAssertion
  | wordBoundaryAssertion
  | quantifier
deriving DecidableEq

/-- The kind of a QuantifiableElement. -/
def QuantifiableElement.kind : QuantifiableElement → ElementKind
  | .backreference _ => .backreference
  | .capturingGroup _ => .capturingGroup
  | .character _ => .character
  | .characterClass _ => .characterClass
  | .characterSet _ => .characterSet
  | .expressionCharacterClass _ => .expressionCharacterClass
  | .group _ => .group
  | .lookahead _ => .lookaheadAssertion

/-- The kind of an Element. -/
def Element.kind : Element → ElementKind
  | .quantifiable e => e.kind
  | .quantifier _ => .quantifier
  | .lookbehind _ => .lookbehindAssertion
  | .boundary (.edge _) => .edgeAssertion
  | .boundary (.wordBoundary _) => .wordBoundaryAssertion

/-- The eight kinds the QuantifiableElement union (ast.ts 42-51) lists. -/
def quantifiableKinds : List ElementKind :=
  [.backreference, .capturingGroup, .character, .characterClass,
   .characterSet, .expressionCharacterClass, .group, .lookaheadAssertion]

/-- C3: for every Quantifier node, its element child is one of exactly
the eight QuantifiableElement variants; a lookbehind assertion or a
boundary assertion (edge or word-boundary) never occurs as the element
of a Quantifier. -/
theorem quantifiable_element_closure :
    (∀ q : Quantifier, q.element.kind ∈ quantifiableKinds)
    ∧ (∀ q : Quantifier,
        q.element.kind ≠ .lookbehindAssertion
        ∧ q.element.kind ≠ .edgeAssertion
        ∧ q.element.kind ≠ .wordBoundaryAssertion) := by
  constructor
  · intro q
    cases q with
    | mk info mn mx g e =>
      cases e <;> simp [Quantifier.element, QuantifiableElement.kind, quantifiableKinds]
  · intro q
    cases q with
    | mk info mn mx g e =>
      cases e <;> simp [Quantifier.element, QuantifiableElement.kind]

/-! ## Class set expression kinds (for the operator asymmetry) -/

inductive ClassSetExprKind where
  | character
  | classStringDisjunction
  | characterSet
  | expressionCharacterClass
  | unicodeSetsCharacterClass
  | classIntersection
  | classSubtraction
deriving DecidableEq

/-- The kind of a ClassSetOperand (ast.ts 359-365). -/
def ClassSetOperand.kind : ClassSetOperand → ClassSetExprKind
  | .character _ => .character
  | .classStringDisjunction _ => .classStringDisjunction
  | .escape _ => .characterSet
  | .property _ => .characterSet
  | .expressionCharacterClass _ => .expressionCharacterClass
  | .unicodeSetsCharacterClass _ => .unicodeSetsCharacterClass

/-- The kind of the left slot of a ClassIntersection (ast.ts 374). -/
def ClassIntersectionLeft.kind : ClassIntersectionLeft → ClassSetExprKind
  | .intersection _ => .classIntersection
  | .operand o => o.kind

/-- The kind of the left slot of a ClassSubtraction (ast.ts 385). -/
def ClassSubtractionLeft.kind : ClassSubtractionLeft → ClassSetExprKind
  | .subtraction _ => .classSubtraction
  | .operand o => o.kind

/-- Whether a kind is that of a plain ClassSetOperand: not an
intersection and not a subtraction. -/
def plainOperandKind : ClassSetExprKind → Bool
  | .classIntersection => false
  | .classSubtraction => false
  | _ => true

theorem operand_kind_plain (o : ClassSetOperand) : plainOperandKind o.kind = true := by
  cases o <;> rfl

/-- C6: for every ClassIntersection node, `left` is either another
ClassIntersection or a plain ClassSetOperand while `right` is always a
plain ClassSetOperand (never an intersection or subtraction);
symmetrically for every ClassSubtraction node, `left` is either another
ClassSubtraction or a plain operand while `right` is always a plain
operand. -/
theorem set_operator_asymmetry :
    (∀ i : ClassIntersection,
        (i.left.kind = .classIntersection ∨ plainOperandKind i.left.kind = true)
        ∧ i.left.kind ≠ .classSubtraction
        ∧ plainOperandKind i.right.kind = true
        ∧ i.right.kind ≠ .classIntersection
        ∧ i.right.kind ≠ .classSubtraction)
    ∧ (∀ s : ClassSubtraction,
        (s.left.kind = .classSubtraction ∨ plainOperandKind s.left.kind = true)
        ∧ s.left.kind ≠ .classIntersection
        ∧ plainOperandKind s.right.kind = true
        ∧ s.right.kind ≠ .classIntersection
        ∧ s.right.kind ≠ .classSubtraction) := by
  constructor
  · intro i
    cases i with
    | mk info l r =>
      refine ⟨?_, ?_, ?_, ?_, ?_⟩
      · cases l with
        | intersection _ => exact Or.inl rfl
        | operand o => exact Or.inr (operand_kind_plain o)
      · cases l with
        | intersection _ => simp [ClassIntersection.left, ClassIntersectionLeft.kind]
        | operand o => cases o <;>
            simp [ClassIntersection.left, ClassIntersectionLeft.kind, ClassSetOperand.kind]
      · exact operand_kind_plain r
      · cases r <;> simp [ClassIntersection.right, ClassSetOperand.kind]
      · cases r <;> simp [ClassIntersection.right, ClassSetOperand.kind]
  · intro s
    cases s with
    | mk info l r =>
      refine ⟨?_, ?_, ?_, ?_, ?_⟩
      · cases l with
        | subtraction _ => exact Or.inl rfl
        | operand o => exact Or.inr (operand_kind_plain o)
      · cases l with
        | subtraction _ => simp [ClassSubtraction.left, ClassSubtractionLeft.kind]
        | operand o => cases o <;>
            simp [ClassSubtraction.left, ClassSubtractionLeft.kind, ClassSetOperand.kind]
      · exact operand_kind_plain r
      · cases r <;> simp [ClassSubtraction.right, ClassSetOperand.kind]
      · cases r <;> simp [ClassSubtraction.right, ClassSetOperand.kind]

/-- C9: for every UnicodePropertyCharacterSet node with `strings` equal
to true, its `value` field is null and its `negate` field is false. -/
theorem strings_property_shape (s : UnicodePropertyCharacterSet)
    (h : s.strings = true) : s.value = none ∧ s.negate = false := by
  cases s with
  | charProp info key v n => simp [UnicodePropertyCharacterSet.strings] at h
  | stringsProp info key =>
      exact ⟨rfl, rfl⟩

/-- A sample NodeInfo for concrete instances. -/
def info0 : NodeInfo := ⟨0, 0, ""⟩

/-- Witness for C9 at the concrete strings-valued property escape
`\p{Basic_Emoji}`. -/
theorem strings_property_shape_witness :
    (UnicodePropertyCharacterSet.stringsProp info0 "Basic_Emoji").value = none
    ∧ (UnicodePropertyCharacterSet.stringsProp info0 "Basic_Emoji").negate = false :=
  strings_property_shape (.stringsProp info0 "Basic_Emoji") rfl

/-! ## The tree builder's inline checks

The builder/validator code of the repository is not under src/ (src/
holds only the AST type declarations), so the construction-time checks
are modelled from the specification. -/

/-- Modelled from the spec: the error taxonomy of section 7 —
UnsupportedConstruct, UnresolvedReference and MalformedRange, each
reported with the offending node's source span (its start index). -/
inductive BuildError where
  | unsupportedConstruct (start : Nat)
  | unresolvedReference (start : Nat)
  | malformedRange (start : Nat)
deriving DecidableEq

/-- Modelled from the spec: the Tree Builder enforces the quantifier
bound law `0 <= min <= max` inline (sections 4.3 and 7; the bounds are
parsed from decimal digits, hence naturals, and max may be Infinity);
a violation is a MalformedRange error at the node's span.  The missing
code is the parser's quantifier construction. -/
def mkQuantifier (info : NodeInfo) (min : Nat) (max : QuantMax) (greedy : Bool)
    (element : QuantifiableElement) : Except BuildError Quantifier :=
  if leMax min max then .ok (.mk info min max greedy element)
  else .error (.malformedRange info.start)

/-- Modelled from the spec: the Tree Builder enforces
`min.value <= max.value` on character class ranges inline (sections 4.3
and 7); a violation is a MalformedRange error at the node's span.  The
missing code is the parser's class range construction. -/
def mkCharacterClassRange (info : NodeInfo) (min max : Character) :
    Except BuildError CharacterClassRange :=
  if min.value ≤ max.value then .ok ⟨info, min, max⟩
  else .error (.malformedRange info.start)

/-- C5: for every constructed Quantifier node, `0 <= min <= max` holds
(max may be Infinity), and for every constructed CharacterClassRange
node, `min.value <= max.value` holds. -/
theorem malformed_range_invariant :
    (∀ (info : NodeInfo) (mn : Nat) (mx : QuantMax) (g : Bool)
        (e : QuantifiableElement) (q : Quantifier),
        mkQuantifier info mn mx g e = .ok q →
        0 ≤ q.min ∧ leMax q.min q.max = true)
    ∧ (∀ (info : NodeInfo) (mn mx : Character) (r : CharacterClassRange),
        mkCharacterClassRange info mn mx = .ok r →
        r.min.value ≤ r.max.value) := by
  constructor
  · intro info mn mx g e q h
    unfold mkQuantifier at h
    split at h
    · rename_i hle
      cases h
      exact ⟨Nat.zero_le _, hle⟩
    · cases h
  · intro info mn mx r h
    unfold mkCharacterClassRange at h
    split at h
    · rename_i hle
      cases h
      exact hle
    · cases h

/-- The quantifier of scenario A, `a{2,}`: min 2, max unbounded, greedy,
wrapping the character `a` (code point 97); the builder accepts it. -/
theorem mkQuantifier_sample :
    mkQuantifier ⟨0, 5, "a{2,}"⟩ 2 .inf true (.character ⟨⟨0, 1, "a"⟩, 97⟩) =
      .ok (.mk ⟨0, 5, "a{2,}"⟩ 2 .inf true (.character ⟨⟨0, 1, "a"⟩, 97⟩)) := rfl

/-- The builder rejects a quantifier with min 3 and max 2 with
MalformedRange at the node's start. -/
theorem mkQuantifier_reject_sample :
    mkQuantifier ⟨4, 10, "a{3,2}"⟩ 3 (.fin 2) true (.character ⟨⟨4, 5, "a"⟩, 97⟩) =
      .error (.malformedRange 4) := rfl

/-- Modelled from the spec: the flags validator — the eight flag
booleans are independent except that `unicode` (u) and `unicodeSets`
(v) select mutually exclusive dialects and can never both be true in a
constructed tree (section 3, Flags); requesting both is an
UnsupportedConstruct error.  The missing code is the flags parser. -/
def mkFlags (info : NodeInfo)
    (dotAll global hasIndices ignoreCase multiline sticky unicode unicodeSets : Bool) :
    Except BuildError Flags :=
  if unicode && unicodeSets then .error (.unsupportedConstruct info.start)
  else .ok ⟨info, dotAll, global, hasIndices, ignoreCase, multiline, sticky,
    unicode, unicodeSets⟩

/-! ## The mode gate

Modelled from the spec (section 4.2): the mode gate is consulted at
every construction step, so in a tree built under a given `unicodeSets`
flag every character class node's `unicodeSets` field equals the active
flag, and an ExpressionCharacterClass is only built when the flag is
set.  `modeOk us` checks exactly that over the pattern layer; inside a
class the node-type lattice itself already constrains the contents (a
ClassRangesCharacterClass cannot contain class strings, expression
classes or nested classes, and everything under a
UnicodeSetsCharacterClass is Unicode-sets material).  The missing code
is the validator's flag-dependent gating. -/

mutual

def Pattern.modeOk (us : Bool) : Pattern → Bool
  | .mk _ alts => Alternatives.modeOk us alts

def Alternatives.modeOk (us : Bool) : Alternatives → Bool
  | .nil => true
  | .cons a rest => DisjunctionAlternative.modeOk us a && Alternatives.modeOk us rest

def DisjunctionAlternative.modeOk (us : Bool) : DisjunctionAlternative → Bool
  | .mk _ els => Elements.modeOk us els

def Elements.modeOk (us : Bool) : Elements → Bool
  | .nil => true
  | .cons e rest => Element.modeOk us e && Elements.modeOk us rest

def Element.modeOk (us : Bool) : Element → Bool
  | .quantifiable e => QuantifiableElement.modeOk us e
  | .quantifier (.mk _ _ _ _ e) => QuantifiableElement.modeOk us e
  | .lookbehind (.mk _ _ alts) => Alternatives.modeOk us alts
  | .boundary _ => true

def QuantifiableElement.modeOk (us : Bool) : QuantifiableElement → Bool
  | .backreference _ => true
  | .capturingGroup (.mk _ _ alts _) => Alternatives.modeOk us alts
  | .character _ => true
  | .characterClass (.classRanges _) => !us
  | .characterClass (.unicodeSets _) => us
  | .characterSet _ => true
  | .expressionCharacterClass _ => us
  | .group (.mk _ alts) => Alternatives.modeOk us alts
  | .lookahead (.mk _ _ alts) => Alternatives.modeOk us alts

end

/-! `hasClassRanges`: whether a ClassRangesCharacterClass occurs in the
pattern.  By the lattice, such a class occurs only at an element
position (its parent is a DisjunctionAlternative or a Quantifier,
ast.ts 218). -/
mutual

def Pattern.hasClassRanges : Pattern → Bool
  | .mk _ alts => Alternatives.hasClassRanges alts

def Alternatives.hasClassRanges : Alternatives → Bool
  | .nil => false
  | .cons a rest =>
      DisjunctionAlternative.hasClassRanges a || Alternatives.hasClassRanges rest

def DisjunctionAlternative.hasClassRanges : DisjunctionAlternative → Bool
  | .mk _ els => Elements.hasClassRanges els

def Elements.hasClassRanges : Elements → Bool
  | .nil => false
  | .cons e rest => Element.hasClassRanges e || Elements.hasClassRanges rest

def Element.hasClassRanges : Element → Bool
  | .quantifiable e => QuantifiableElement.hasClassRanges e
  | .quantifier (.mk _ _ _ _ e) => QuantifiableElement.hasClassRanges e
  | .lookbehind (.mk _ _ alts) => Alternatives.hasClassRanges alts
  | .boundary _ => false

def QuantifiableElement.hasClassRanges : QuantifiableElement → Bool
  | .backreference _ => false
  | .capturingGroup (.mk _ _ alts _) => Alternatives.hasClassRanges alts
  | .character _ => false
  | .characterClass (.classRanges _) => true
  | .characterClass (.unicodeSets _) => false
  | .characterSet _ => false
  | .expressionCharacterClass _ => false
  | .group (.mk _ alts) => Alternatives.hasClassRanges alts
  | .lookahead (.mk _ _ alts) => Alternatives.hasClassRanges alts

end

/-! `hasUSOnly`: whether a construct legal only in Unicode-sets mode
occurs in the pattern.  The outermost such construct is necessarily a
UnicodeSetsCharacterClass or an ExpressionCharacterClass at an element
position: by the lattice a ClassStringDisjunction sits only under a
UnicodeSetsCharacterClass, a ClassIntersection or a ClassSubtraction
(ast.ts 395), and the latter two sit only under an
ExpressionCharacterClass or each other (ast.ts 373, 384). -/
mutual

def Pattern.hasUSOnly : Pattern → Bool
  | .mk _ alts => Alternatives.hasUSOnly alts

def Alternatives.hasUSOnly : Alternatives → Bool
  | .nil => false
  | .cons a rest => DisjunctionAlternative.hasUSOnly a || Alternatives.hasUSOnly rest

def DisjunctionAlternative.hasUSOnly : DisjunctionAlternative → Bool
  | .mk _ els => Elements.hasUSOnly els

def Elements.hasUSOnly : Elements → Bool
  | .nil => false
  | .cons e rest => Element.hasUSOnly e || Elements.hasUSOnly rest

def Element.hasUSOnly : Element → Bool
  | .quantifiable e => QuantifiableElement.hasUSOnly e
  | .quantifier (.mk _ _ _ _ e) => QuantifiableElement.hasUSOnly e
  | .lookbehind (.mk _ _ alts) => Alternatives.hasUSOnly alts
  | .boundary _ => false

def QuantifiableElement.hasUSOnly : QuantifiableElement → Bool
  | .backreference _ => false
  | .capturingGroup (.mk _ _ alts _) => Alternatives.hasUSOnly alts
  | .character _ => false
  | .characterClass (.classRanges _) => false
  | .characterClass (.unicodeSets _) => true
  | .characterSet _ => false
  | .expressionCharacterClass _ => true
  | .group (.mk _ alts) => Alternatives.hasUSOnly alts
  | .lookahead (.mk _ _ alts) => Alternatives.hasUSOnly alts

end

/-! Soundness of the gate: a pattern passing the gate with the flag off
contains no Unicode-sets-only construct, and one passing with the flag
on contains no ClassRangesCharacterClass. -/
mutual

theorem gate_sound_pattern : ∀ p : Pattern,
    (Pattern.modeOk false p = true → Pattern.hasUSOnly p = false)
    ∧ (Pattern.modeOk true p = true → Pattern.hasClassRanges p = false)
  | .mk _ alts => by
      simpa [Pattern.modeOk, Pattern.hasUSOnly, Pattern.hasClassRanges] using
        gate_sound_alternatives alts

theorem gate_sound_alternatives : ∀ l : Alternatives,
    (Alternatives.modeOk false l = true → Alternatives.hasUSOnly l = false)
    ∧ (Alternatives.modeOk true l = true → Alternatives.hasClassRanges l = false)
  | .nil => by
      simp [Alternatives.modeOk, Alternatives.hasUSOnly, Alternatives.hasClassRanges]
  | .cons a rest => by
      have h1 := gate_sound_alternative a
      have h2 := gate_sound_alternatives rest
      constructor
      · intro h
        simp only [Alternatives.modeOk, Bool.and_eq_true] at h
        simp only [Alternatives.hasUSOnly, Bool.or_eq_false_iff]
        exact ⟨h1.1 h.1, h2.1 h.2⟩
      · intro h
        simp only [Alternatives.modeOk, Bool.and_eq_true] at h
        simp only [Alternatives.hasClassRanges, Bool.or_eq_false_iff]
        exact ⟨h1.2 h.1, h2.2 h.2⟩

theorem gate_sound_alternative : ∀ a : DisjunctionAlternative,
    (DisjunctionAlternative.modeOk false a = true →
      DisjunctionAlternative.hasUSOnly a = false)
    ∧ (DisjunctionAlternative.modeOk true a = true →
      DisjunctionAlternative.hasClassRanges a = false)
  | .mk _ els => by
      simpa [DisjunctionAlternative.modeOk, DisjunctionAlternative.hasUSOnly,
        DisjunctionAlternative.hasClassRanges] using gate_sound_elements els

theorem gate_sound_elements : ∀ l : Elements,
    (Elements.modeOk false l = true → Elements.hasUSOnly l = false)
    ∧ (Elements.modeOk true l = true → Elements.hasClassRanges l = false)
  | .nil => by
      simp [Elements.modeOk, Elements.hasUSOnly, Elements.hasClassRanges]
  | .cons e rest => by
      have h1 := gate_sound_element e
      have h2 := gate_sound_elements rest
      constructor
      · intro h
        simp only [Elements.modeOk, Bool.and_eq_true] at h
        simp only [Elements.hasUSOnly, Bool.or_eq_false_iff]
        exact ⟨h1.1 h.1, h2.1 h.2⟩
      · intro h
        simp only [Elements.modeOk, Bool.and_eq_true] at h
        simp only [Elements.hasClassRanges, Bool.or_eq_false_iff]
        exact ⟨h1.2 h.1, h2.2 h.2⟩

theorem gate_sound_element : ∀ e : Element,
    (Element.modeOk false e = true → Element.hasUSOnly e = false)
    ∧ (Element.modeOk true e = true → Element.hasClassRanges e = false)
  | .quantifiable e => by
      simpa [Element.modeOk, Element.hasUSOnly, Element.hasClassRanges] using
        gate_sound_quantifiable e
  | .quantifier (.mk _ _ _ _ e) => by
      simpa [Element.modeOk, Element.hasUSOnly, Element.hasClassRanges] using
        gate_sound_quantifiable e
  | .lookbehind (.mk _ _ alts) => by
      simpa [Element.modeOk, Element.hasUSOnly, Element.hasClassRanges] using
        gate_sound_alternatives alts
  | .boundary _ => by
      simp [Element.modeOk, Element.hasUSOnly, Element.hasClassRanges]

theorem gate_sound_quantifiable : ∀ e : QuantifiableElement,
    (QuantifiableElement.modeOk false e = true →
      QuantifiableElement.hasUSOnly e = false)
    ∧ (QuantifiableElement.modeOk true e = true →
      QuantifiableElement.hasClassRanges e = false)
  | .backreference _ => by
      simp [QuantifiableElement.modeOk, QuantifiableElement.hasUSOnly,
        QuantifiableElement.hasClassRanges]
  | .capturingGroup (.mk _ _ alts _) => by
      simpa [QuantifiableElement.modeOk, QuantifiableElement.hasUSOnly,
        QuantifiableElement.hasClassRanges] using gate_sound_alternatives alts
  | .character _ => by
      simp [QuantifiableElement.modeOk, QuantifiableElement.hasUSOnly,
        QuantifiableElement.hasClassRanges]
  | .characterClass (.classRanges _) => by
      simp [QuantifiableElement.modeOk, QuantifiableElement.hasUSOnly,
        QuantifiableElement.hasClassRanges]
  | .characterClass (.unicodeSets _) => by
      simp [QuantifiableElement.modeOk, QuantifiableElement.hasUSOnly,
        QuantifiableElement.hasClassRanges]
  | .characterSet _ => by
      simp [QuantifiableElement.modeOk, QuantifiableElement.hasUSOnly,
        QuantifiableElement.hasClassRanges]
  | .expressionCharacterClass _ => by
      simp [QuantifiableElement.modeOk, QuantifiableElement.hasUSOnly,
        QuantifiableElement.hasClassRanges]
  | .group (.mk _ alts) => by
      simpa [QuantifiableElement.modeOk, QuantifiableElement.hasUSOnly,
        QuantifiableElement.hasClassRanges] using gate_sound_alternatives alts
  | .lookahead (.mk _ _ alts) => by
      simpa [QuantifiableElement.modeOk, QuantifiableElement.hasUSOnly,
        QuantifiableElement.hasClassRanges] using gate_sound_alternatives alts

end

/-- Kinds of character class elements, for stating which variants a
class of each dialect may contain. -/
inductive CharacterClassElementKind where
  | character
  | characterClassRange
  | characterSet
  | classStringDisjunction
  | expressionCharacterClass
  | unicodeSetsCharacterClass
deriving DecidableEq

/-- The kind of a ClassRangesCharacterClassElement (ast.ts 58-62). -/
def ClassRangesCharacterClassElement.kind :
    ClassRangesCharacterClassElement → CharacterClassElementKind
  | .character _ => .character
  | .characterClassRange _ => .characterClassRange
  | .escape _ => .characterSet
  | .property _ => .characterSet

/-- C4: the Flags booleans `unicode` and `unicodeSets` are never both
true in a constructed tree; a pattern passing the mode gate never
contains both a ClassRangesCharacterClass and a Unicode-sets-only
construct (UnicodeSetsCharacterClass, ExpressionCharacterClass, and
through them ClassStringDisjunction); and a ClassRangesCharacterClass
never contains strings or nested expression classes. -/
theorem mode_exclusivity :
    (∀ (info : NodeInfo) (d g hi ic ml st u us : Bool) (f : Flags),
        mkFlags info d g hi ic ml st u us = .ok f →
        ¬(f.unicode = true ∧ f.unicodeSets = true))
    ∧ (∀ (us : Bool) (p : Pattern), Pattern.modeOk us p = true →
        ¬(Pattern.hasClassRanges p = true ∧ Pattern.hasUSOnly p = true))
    ∧ (∀ e : ClassRangesCharacterClassElement,
        e.kind ≠ .classStringDisjunction
        ∧ e.kind ≠ .expressionCharacterClass
        ∧ e.kind ≠ .unicodeSetsCharacterClass) := by
  refine ⟨?_, ?_, ?_⟩
  · intro info d g hi ic ml st u us f h
    unfold mkFlags at h
    split at h
    · cases h
    · rename_i hne
      cases h
      simp only [Bool.and_eq_true, not_and] at hne ⊢
      intro hu hus
      exact hne hu hus
  · intro us p hmode hboth
    cases us with
    | false =>
        have := (gate_sound_pattern p).1 hmode
        rw [this] at hboth
        exact Bool.false_ne_true hboth.2
    | true =>
        have := (gate_sound_pattern p).2 hmode
        rw [this] at hboth
        exact Bool.false_ne_true hboth.1
  · intro e
    cases e <;> simp [ClassRangesCharacterClassElement.kind]

/-- The flags parser rejects a literal carrying both the u and the v
flag with UnsupportedConstruct at the flags span. -/
theorem mkFlags_reject_sample :
    mkFlags ⟨6, 8, "uv"⟩ false false false false false false true true =
      .error (.unsupportedConstruct 6) := rfl

/-! ## Parent wiring

Modelled from the spec: the Tree Builder wires the `parent` backlink of
every child as each composite node is finalized (section 4.3), and the
design notes direct modelling `parent` as a relation from child
position to parent position over the ownership tree (section 9),
nullable only at the root.  The missing code is the builder's
attachment step; the lattice itself is cyclic through `parent` and is
represented here by the ownership tree plus the derived backlink
relation, where a node is identified by its path from the root. -/

/-- The `type` discriminants of the node lattice (ast.ts 4-32). -/
inductive NodeKind where
  | regExpLiteral
  | pattern
  | flags
  | alternative
  | group
  | capturingGroup
  | assertion
  | quantifier
  | characterClass
  | characterClassRange
  | characterSet
  | character
  | backreference
  | expressionCharacterClass
  | classIntersection
  | classSubtraction
  | classStringDisjunction
deriving DecidableEq

mutual

inductive NodeTree where
  | node (kind : NodeKind) (children : NodeForest)

inductive NodeForest where
  | nil
  | cons (head : NodeTree) (tail : NodeForest)

end

/-- The kind of the tree's root node. -/
def NodeTree.kind : NodeTree → NodeKind
  | .node k _ => k

/-- One row of the parent relation: the node at `path` has the given
`parent` backlink (none for the root) and discriminant `kind`. -/
structure PEntry where
  path : List Nat
  parent : Option (List Nat)
  kind : NodeKind
deriving DecidableEq

mutual

def NodeTree.entriesAt (path : List Nat) (par : Option (List Nat)) :
    NodeTree → List PEntry
  | .node k cs => ⟨path, par, k⟩ :: NodeForest.entriesAt path 0 cs

def NodeForest.entriesAt (pp : List Nat) (i : Nat) : NodeForest → List PEntry
  | .nil => []
  | .cons t rest =>
      NodeTree.entriesAt (pp ++ [i]) (some pp) t ++ NodeForest.entriesAt pp (i + 1) rest

end

/-- The full parent relation of a constructed tree: every node with its
backlink; the root sits at path `[]` with backlink none. -/
def parentEntries (t : NodeTree) : List PEntry :=
  NodeTree.entriesAt [] none t

/-- Modelled from the spec: a RegExpLiteral owns exactly one Pattern
and one Flags (section 3), wired as its two children. -/
def mkRegExpLiteral (patternTree flagsTree : NodeTree) : NodeTree :=
  .node .regExpLiteral (.cons patternTree (.cons flagsTree .nil))

/-! Every entry produced under a parent carries a non-null backlink and
a non-root path. -/
mutual

theorem entries_shape_tree : ∀ (t : NodeTree) (path : List Nat)
    (par : Option (List Nat)) (e : PEntry), e ∈ NodeTree.entriesAt path par t →
    (e.path = path ∧ e.parent = par) ∨ (e.parent ≠ none ∧ e.path ≠ [])
  | .node _ cs, path, par, e => by
      intro he
      simp only [NodeTree.entriesAt, List.mem_cons] at he
      rcases he with rfl | he
      · exact Or.inl ⟨rfl, rfl⟩
      · exact Or.inr (entries_shape_forest cs path 0 e he)

theorem entries_shape_forest : ∀ (f : NodeForest) (pp : List Nat) (i : Nat)
    (e : PEntry), e ∈ NodeForest.entriesAt pp i f → e.parent ≠ none ∧ e.path ≠ []
  | .nil, _, _, _ => by
      intro he
      simp [NodeForest.entriesAt] at he
  | .cons t rest, pp, i, e => by
      intro he
      simp only [NodeForest.entriesAt, List.mem_append] at he
      rcases he with he | he
      · rcases entries_shape_tree t (pp ++ [i]) (some pp) e he with ⟨hp, hpar⟩ | h
        · rw [hpar, hp]
          exact ⟨by simp, by simp⟩
        · exact h
      · exact entries_shape_forest rest pp (i + 1) e he

end

theorem root_entry_mem (t : NodeTree) (path : List Nat) (par : Option (List Nat)) :
    (⟨path, par, t.kind⟩ : PEntry) ∈ NodeTree.entriesAt path par t := by
  cases t with
  | node k cs => simp [NodeTree.entriesAt, NodeTree.kind]

/-- C7: in every constructed tree, the `parent` backlink is null exactly
at the RegExpLiteral root and non-null for every other node; the Pattern
child (at path `[0]`) and the Flags child (at path `[1]`) of a
RegExpLiteral both have that RegExpLiteral (the root, path `[]`) as
their parent. -/
theorem root_only_null_parent (pt ft : NodeTree) :
    (∀ e ∈ parentEntries (mkRegExpLiteral pt ft), e.parent = none ↔ e.path = [])
    ∧ (⟨[], none, .regExpLiteral⟩ : PEntry) ∈ parentEntries (mkRegExpLiteral pt ft)
    ∧ (⟨[0], some [], pt.kind⟩ : PEntry) ∈ parentEntries (mkRegExpLiteral pt ft)
    ∧ (⟨[1], some [], ft.kind⟩ : PEntry) ∈ parentEntries (mkRegExpLiteral pt ft) := by
  refine ⟨?_, ?_, ?_, ?_⟩
  · intro e he
    simp only [parentEntries, mkRegExpLiteral, NodeTree.entriesAt, List.mem_cons] at he
    rcases he with rfl | he
    · simp
    · have := entries_shape_forest _ [] 0 e he
      constructor
      · intro hp
        exact absurd hp this.1
      · intro hp
        exact absurd hp this.2
  · simp [parentEntries, mkRegExpLiteral, NodeTree.entriesAt]
  · simp only [parentEntries, mkRegExpLiteral, NodeTree.entriesAt, List.mem_cons,
      NodeForest.entriesAt, List.mem_append, List.nil_append]
    right
    left
    simpa using root_entry_mem pt [0] (some [])
  · simp only [parentEntries, mkRegExpLiteral, NodeTree.entriesAt, List.mem_cons,
      NodeForest.entriesAt, List.mem_append, List.nil_append]
    right
    right
    simpa using root_entry_mem ft [1] (some [])

/-! ## The backreference resolver

Modelled from the spec (section 4.4): the resolver is a single pass
over the finished Pattern that (a) collects every CapturingGroup keyed
by its 1-based ordinal position in source order and, if present, its
name; (b) revisits every Backreference and sets its `resolved` link to
the matching group (numeric references resolve by ordinal position
across the entire pattern, so forward references resolve; named
references by name match); a reference matching no group is an
UnresolvedReference error at the reference's span, failing the whole
build; finally it populates each resolved group's `references` list as
the inverse index.  The missing code is the resolver itself; the
finished pattern is abstracted as a tree in which capturing groups and
backreferences are distinguished and every other node is opaque, each
node identified by its span start, and the cross-link fields
`resolved`/`references` hold such identifiers (the spec's arena design
note).  `resolved` is an Option: none is the pending state before
resolution. -/

mutual

inductive RNode where
  | leaf (start : Nat)
  | backreference (start : Nat) (ref : Ref) (resolved : Option Nat)
  | capturingGroup (start : Nat) (name : Option String) (references : List Nat)
      (children : RForest)
  | branch (start : Nat) (children : RForest)

inductive RForest where
  | nil
  | cons (head : RNode) (tail : RForest)

end

/-! Pass (a): the groups of the pattern in source order, each as
(identifier, name); the 1-based ordinal of a group is its position in
this list. -/
mutual

def RNode.collectGroups : RNode → List (Nat × Option String)
  | .leaf _ => []
  | .backreference .. => []
  | .capturingGroup s n _ cs => (s, n) :: RForest.collectGroups cs
  | .branch _ cs => RForest.collectGroups cs

def RForest.collectGroups : RForest → List (Nat × Option String)
  | .nil => []
  | .cons t rest => RNode.collectGroups t ++ RForest.collectGroups rest

end

/-- Resolving one reference against the collected groups: a numeric
reference by 1-based ordinal, a named reference by exact name match. -/
def lookupRef (gs : List (Nat × Option String)) : Ref → Option Nat
  | .num n => if n = 0 then none else (gs[n - 1]?).map Prod.fst
  | .name s => (gs.find? (fun g => g.2 == some s)).map Prod.fst

/-! Pass (b): set every backreference's `resolved` link, failing with
UnresolvedReference at the reference's span when no group matches. -/
mutual

def RNode.resolveRefs (gs : List (Nat × Option String)) :
    RNode → Except BuildError RNode
  | .leaf s => .ok (.leaf s)
  | .backreference s r _ =>
      match lookupRef gs r with
      | some g => .ok (.backreference s r (some g))
      | none => .error (.unresolvedReference s)
  | .capturingGroup s n refs cs =>
      match RForest.resolveRefs gs cs with
      | .ok cs2 => .ok (.capturingGroup s n refs cs2)
      | .error err => .error err
  | .branch s cs =>
      match RForest.resolveRefs gs cs with
      | .ok cs2 => .ok (.branch s cs2)
      | .error err => .error err

def RForest.resolveRefs (gs : List (Nat × Option String)) :
    RForest → Except BuildError RForest
  | .nil => .ok .nil
  | .cons t rest =>
      match RNode.resolveRefs gs t with
      | .error err => .error err
      | .ok t2 =>
          match RForest.resolveRefs gs rest with
          | .error err => .error err
          | .ok rest2 => .ok (.cons t2 rest2)

end

/-! The inverse index: all (backreference identifier, resolved group
identifier) pairs of the tree. -/
mutual

def RNode.collectRefs : RNode → List (Nat × Nat)
  | .leaf _ => []
  | .backreference s _ (some g) => [(s, g)]
  | .backreference _ _ none => []
  | .capturingGroup _ _ _ cs => RForest.collectRefs cs
  | .branch _ cs => RForest.collectRefs cs

def RForest.collectRefs : RForest → List (Nat × Nat)
  | .nil => []
  | .cons t rest => RNode.collectRefs t ++ RForest.collectRefs rest

end

/-! Populating each group's `references` list from the inverse index. -/
mutual

def RNode.attachRefs (pairs : List (Nat × Nat)) : RNode → RNode
  | .leaf s => .leaf s
  | .backreference s r res => .backreference s r res
  | .capturingGroup s n _ cs =>
      .capturingGroup s n ((pairs.filter (fun pr => pr.2 == s)).map Prod.fst)
        (RForest.attachRefs pairs cs)
  | .branch s cs => .branch s (RForest.attachRefs pairs cs)

def RForest.attachRefs (pairs : List (Nat × Nat)) : RForest → RForest
  | .nil => .nil
  | .cons t rest => .cons (RNode.attachRefs pairs t) (RForest.attachRefs pairs rest)

end

/-- The whole resolver pass over a finished pattern tree. -/
def resolve (t : RNode) : Except BuildError RNode :=
  match RNode.resolveRefs (RNode.collectGroups t) t with
  | .ok t2 => .ok (RNode.attachRefs (RNode.collectRefs t2) t2)
  | .error err => .error err

/-! Observers for the statements: all backreferences of a tree as
(identifier, ref, resolved) triples, and all capturing groups as
(identifier, name, references) triples. -/
mutual

def RNode.backrefs : RNode → List (Nat × Ref × Option Nat)
  | .leaf _ => []
  | .backreference s r res => [(s, r, res)]
  | .capturingGroup _ _ _ cs => RForest.backrefs cs
  | .branch _ cs => RForest.backrefs cs

def RForest.backrefs : RForest → List (Nat × Ref × Option Nat)
  | .nil => []
  | .cons t rest => RNode.backrefs t ++ RForest.backrefs rest

end

mutual

def RNode.groups : RNode → List (Nat × Option String × List Nat)
  | .leaf _ => []
  | .backreference .. => []
  | .capturingGroup s n refs cs => (s, n, refs) :: RForest.groups cs
  | .branch _ cs => RForest.groups cs

def RForest.groups : RForest → List (Nat × Option String × List Nat)
  | .nil => []
  | .cons t rest => RNode.groups t ++ RForest.groups rest

end

/-! Resolver lemmas. -/

theorem lookupRef_mem (gs : List (Nat × Option String)) (r : Ref) (g : Nat)
    (h : lookupRef gs r = some g) : g ∈ gs.map Prod.fst := by
  cases r with
  | num n =>
      simp only [lookupRef] at h
      split at h
      · cases h
      · rcases Option.map_eq_some.mp h with ⟨p, hp, rfl⟩
        rcases List.getElem?_eq_some.mp hp with ⟨hn, rfl⟩
        exact List.mem_map_of_mem _ (List.getElem_mem hn)
  | name s =>
      simp only [lookupRef] at h
      rcases Option.map_eq_some.mp h with ⟨p, hp, rfl⟩
      exact List.mem_map_of_mem _ (List.mem_of_find?_eq_some hp)

mutual

theorem resolveRefs_ok_groups_node : ∀ (t : RNode)
    (gs : List (Nat × Option String)) (t2 : RNode),
    RNode.resolveRefs gs t = .ok t2 →
    RNode.collectGroups t2 = RNode.collectGroups t
  | .leaf s, gs, t2 => by
      intro h
      simp only [RNode.resolveRefs] at h
      cases h
      rfl
  | .backreference s r res, gs, t2 => by
      intro h
      simp only [RNode.resolveRefs] at h
      split at h
      · cases h
        rfl
      · cases h
  | .capturingGroup s n refs cs, gs, t2 => by
      intro h
      simp only [RNode.resolveRefs] at h
      split at h
      · rename_i cs2 hcs
        cases h
        simp only [RNode.collectGroups]
        rw [resolveRefs_ok_groups_forest cs gs cs2 hcs]
      · cases h
  | .branch s cs, gs, t2 => by
      intro h
      simp only [RNode.resolveRefs] at h
      split at h
      · rename_i cs2 hcs
        cases h
        simp only [RNode.collectGroups]
        rw [resolveRefs_ok_groups_forest cs gs cs2 hcs]
      · cases h

theorem resolveRefs_ok_groups_forest : ∀ (f : RForest)
    (gs : List (Nat × Option String)) (f2 : RForest),
    RForest.resolveRefs gs f = .ok f2 →
    RForest.collectGroups f2 = RForest.collectGroups f
  | .nil, gs, f2 => by
      intro h
      simp only [RForest.resolveRefs] at h
      cases h
      rfl
  | .cons t rest, gs, f2 => by
      intro h
      simp only [RForest.resolveRefs] at h
      split at h
      · cases h
      · rename_i t2 ht
        split at h
        · cases h
        · rename_i rest2 hrest
          cases h
          simp only [RForest.collectGroups]
          rw [resolveRefs_ok_groups_node t gs t2 ht,
            resolveRefs_ok_groups_forest rest gs rest2 hrest]

end

mutual

theorem attachRefs_backrefs_node : ∀ (t : RNode) (pairs : List (Nat × Nat)),
    RNode.backrefs (RNode.attachRefs pairs t) = RNode.backrefs t
  | .leaf _, _ => rfl
  | .backreference .., _ => rfl
  | .capturingGroup _ _ _ cs, pairs => by
      simp only [RNode.attachRefs, RNode.backrefs]
      exact attachRefs_backrefs_forest cs pairs
  | .branch _ cs, pairs => by
      simp only [RNode.attachRefs, RNode.backrefs]
      exact attachRefs_backrefs_forest cs pairs

theorem attachRefs_backrefs_forest : ∀ (f : RForest) (pairs : List (Nat × Nat)),
    RForest.backrefs (RForest.attachRefs pairs f) = RForest.backrefs f
  | .nil, _ => rfl
  | .cons t rest, pairs => by
      simp only [RForest.attachRefs, RForest.backrefs]
      rw [attachRefs_backrefs_node t pairs, attachRefs_backrefs_forest rest pairs]

end

mutual

theorem attachRefs_groupIds_node : ∀ (t : RNode) (pairs : List (Nat × Nat)),
    RNode.collectGroups (RNode.attachRefs pairs t) = RNode.collectGroups t
  | .leaf _, _ => rfl
  | .backreference .., _ => rfl
  | .capturingGroup _ _ _ cs, pairs => by
      simp only [RNode.attachRefs, RNode.collectGroups]
      rw [attachRefs_groupIds_forest cs pairs]
  | .branch _ cs, pairs => by
      simp only [RNode.attachRefs, RNode.collectGroups]
      exact attachRefs_groupIds_forest cs pairs

theorem attachRefs_groupIds_forest : ∀ (f : RForest) (pairs : List (Nat × Nat)),
    RForest.collectGroups (RForest.attachRefs pairs f) = RForest.collectGroups f
  | .nil, _ => rfl
  | .cons t rest, pairs => by
      simp only [RForest.attachRefs, RForest.collectGroups]
      rw [attachRefs_groupIds_node t pairs, attachRefs_groupIds_forest rest pairs]

end

mutual

theorem attachRefs_groups_node : ∀ (t : RNode) (pairs : List (Nat × Nat)),
    ∀ gr ∈ RNode.groups (RNode.attachRefs pairs t),
    gr.2.2 = (pairs.filter (fun pr => pr.2 == gr.1)).map Prod.fst
  | .leaf _, _ => by
      intro gr hgr
      simp [RNode.attachRefs, RNode.groups] at hgr
  | .backreference .., _ => by
      intro gr hgr
      simp [RNode.attachRefs, RNode.groups] at hgr
  | .capturingGroup s n refs cs, pairs => by
      intro gr hgr
      simp only [RNode.attachRefs, RNode.groups, List.mem_cons] at hgr
      rcases hgr with rfl | hgr
      · rfl
      · exact attachRefs_groups_forest cs pairs gr hgr
  | .branch _ cs, pairs => by
      intro gr hgr
      simp only [RNode.attachRefs, RNode.groups] at hgr
      exact attachRefs_groups_forest cs pairs gr hgr

theorem attachRefs_groups_forest : ∀ (f : RForest) (pairs : List (Nat × Nat)),
    ∀ gr ∈ RForest.groups (RForest.attachRefs pairs f),
    gr.2.2 = (pairs.filter (fun pr => pr.2 == gr.1)).map Prod.fst
  | .nil, _ => by
      intro gr hgr
      simp [RForest.attachRefs, RForest.groups] at hgr
  | .cons t rest, pairs => by
      intro gr hgr
      simp only [RForest.attachRefs, RForest.groups, List.mem_append] at hgr
      rcases hgr with hgr | hgr
      · exact attachRefs_groups_node t pairs gr hgr
      · exact attachRefs_groups_forest rest pairs gr hgr

end

mutual

theorem collectRefs_backrefs_node : ∀ (t : RNode),
    ∀ pr ∈ RNode.collectRefs t, ∃ r, (pr.1, r, some pr.2) ∈ RNode.backrefs t
  | .leaf _ => by
      intro pr hpr
      simp [RNode.collectRefs] at hpr
  | .backreference s r res => by
      intro pr hpr
      cases res with
      | some g =>
          simp only [RNode.collectRefs, List.mem_singleton] at hpr
          subst hpr
          exact ⟨r, by simp [RNode.backrefs]⟩
      | none => simp [RNode.collectRefs] at hpr
  | .capturingGroup _ _ _ cs => by
      intro pr hpr
      simp only [RNode.collectRefs] at hpr
      simpa [RNode.backrefs] using collectRefs_backrefs_forest cs pr hpr
  | .branch _ cs => by
      intro pr hpr
      simp only [RNode.collectRefs] at hpr
      simpa [RNode.backrefs] using collectRefs_backrefs_forest cs pr hpr

theorem collectRefs_backrefs_forest : ∀ (f : RForest),
    ∀ pr ∈ RForest.collectRefs f, ∃ r, (pr.1, r, some pr.2) ∈ RForest.backrefs f
  | .nil => by
      intro pr hpr
      simp [RForest.collectRefs] at hpr
  | .cons t rest => by
      intro pr hpr
      simp only [RForest.collectRefs, List.mem_append] at hpr
      rcases hpr with hpr | hpr
      · rcases collectRefs_backrefs_node t pr hpr with ⟨r, hr⟩
        exact ⟨r, by simp only [RForest.backrefs, List.mem_append]; exact Or.inl hr⟩
      · rcases collectRefs_backrefs_forest rest pr hpr with ⟨r, hr⟩
        exact ⟨r, by simp only [RForest.backrefs, List.mem_append]; exact Or.inr hr⟩

end

mutual

theorem groups_map_fst_node : ∀ t : RNode,
    (RNode.groups t).map (fun gr => gr.1) = (RNode.collectGroups t).map Prod.fst
  | .leaf _ => rfl
  | .backreference .. => rfl
  | .capturingGroup s n refs cs => by
      simp only [RNode.groups, RNode.collectGroups, List.map_cons]
      rw [groups_map_fst_forest cs]
  | .branch _ cs => by
      simp only [RNode.groups, RNode.collectGroups]
      exact groups_map_fst_forest cs

theorem groups_map_fst_forest : ∀ f : RForest,
    (RForest.groups f).map (fun gr => gr.1) = (RForest.collectGroups f).map Prod.fst
  | .nil => rfl
  | .cons t rest => by
      simp only [RForest.groups, RForest.collectGroups, List.map_append]
      rw [groups_map_fst_node t, groups_map_fst_forest rest]

end

mutual

theorem resolveRefs_ok_backrefs_node : ∀ (t : RNode)
    (gs : List (Nat × Option String)) (t2 : RNode),
    RNode.resolveRefs gs t = .ok t2 →
    ∀ e ∈ RNode.backrefs t2, ∃ g, e.2.2 = some g ∧ lookupRef gs e.2.1 = some g
  | .leaf s, gs, t2 => by
      intro h e he
      simp only [RNode.resolveRefs] at h
      cases h
      simp [RNode.backrefs] at he
  | .backreference s r res, gs, t2 => by
      intro h e he
      simp only [RNode.resolveRefs] at h
      split at h
      · rename_i g hl
        cases h
        simp only [RNode.backrefs, List.mem_singleton] at he
        subst he
        exact ⟨g, rfl, hl⟩
      · cases h
  | .capturingGroup s n refs cs, gs, t2 => by
      intro h e he
      simp only [RNode.resolveRefs] at h
      split at h
      · rename_i cs2 hcs
        cases h
        simp only [RNode.backrefs] at he
        exact resolveRefs_ok_backrefs_forest cs gs cs2 hcs e he
      · cases h
  | .branch s cs, gs, t2 => by
      intro h e he
      simp only [RNode.resolveRefs] at h
      split at h
      · rename_i cs2 hcs
        cases h
        simp only [RNode.backrefs] at he
        exact resolveRefs_ok_backrefs_forest cs gs cs2 hcs e he
      · cases h

theorem resolveRefs_ok_backrefs_forest : ∀ (f : RForest)
    (gs : List (Nat × Option String)) (f2 : RForest),
    RForest.resolveRefs gs f = .ok f2 →
    ∀ e ∈ RForest.backrefs f2, ∃ g, e.2.2 = some g ∧ lookupRef gs e.2.1 = some g
  | .nil, gs, f2 => by
      intro h e he
      simp only [RForest.resolveRefs] at h
      cases h
      simp [RForest.backrefs] at he
  | .cons t rest, gs, f2 => by
      intro h e he
      simp only [RForest.resolveRefs] at h
      split at h
      · cases h
      · rename_i t2 ht
        split at h
        · cases h
        · rename_i rest2 hrest
          cases h
          simp only [RForest.backrefs, List.mem_append] at he
          rcases he with he | he
          · exact resolveRefs_ok_backrefs_node t gs t2 ht e he
          · exact resolveRefs_ok_backrefs_forest rest gs rest2 hrest e he

end

mutual

theorem resolveRefs_error_node : ∀ (t : RNode)
    (gs : List (Nat × Option String)) (err : BuildError),
    RNode.resolveRefs gs t = .error err →
    ∃ e ∈ RNode.backrefs t, lookupRef gs e.2.1 = none
      ∧ err = .unresolvedReference e.1
  | .leaf s, gs, err => by
      intro h
      simp only [RNode.resolveRefs] at h
      cases h
  | .backreference s r res, gs, err => by
      intro h
      simp only [RNode.resolveRefs] at h
      split at h
      · cases h
      · rename_i hl
        cases h
        exact ⟨(s, r, res), by simp [RNode.backrefs], hl, rfl⟩
  | .capturingGroup s n refs cs, gs, err => by
      intro h
      simp only [RNode.resolveRefs] at h
      split at h
      · cases h
      · rename_i hcs
        cases h
        rcases resolveRefs_error_forest cs gs err hcs with ⟨e, he, hl, herr⟩
        exact ⟨e, by simpa [RNode.backrefs] using he, hl, herr⟩
  | .branch s cs, gs, err => by
      intro h
      simp only [RNode.resolveRefs] at h
      split at h
      · cases h
      · rename_i hcs
        cases h
        rcases resolveRefs_error_forest cs gs err hcs with ⟨e, he, hl, herr⟩
        exact ⟨e, by simpa [RNode.backrefs] using he, hl, herr⟩

theorem resolveRefs_error_forest : ∀ (f : RForest)
    (gs : List (Nat × Option String)) (err : BuildError),
    RForest.resolveRefs gs f = .error err →
    ∃ e ∈ RForest.backrefs f, lookupRef gs e.2.1 = none
      ∧ err = .unresolvedReference e.1
  | .nil, gs, err => by
      intro h
      simp only [RForest.resolveRefs] at h
      cases h
  | .cons t rest, gs, err => by
      intro h
      simp only [RForest.resolveRefs] at h
      split at h
      · rename_i ht
        cases h
        rcases resolveRefs_error_node t gs err ht with ⟨e, he, hl, herr⟩
        refine ⟨e, ?_, hl, herr⟩
        simp only [RForest.backrefs, List.mem_append]
        exact Or.inl he
      · rename_i t2 ht
        split at h
        · rename_i hrest
          cases h
          rcases resolveRefs_error_forest rest gs err hrest with ⟨e, he, hl, herr⟩
          refine ⟨e, ?_, hl, herr⟩
          simp only [RForest.backrefs, List.mem_append]
          exact Or.inr he
        · cases h

end

mutual

theorem resolveRefs_ok_lookup_node : ∀ (t : RNode)
    (gs : List (Nat × Option String)) (t2 : RNode),
    RNode.resolveRefs gs t = .ok t2 →
    ∀ e ∈ RNode.backrefs t, ∃ g, lookupRef gs e.2.1 = some g
  | .leaf s, gs, t2 => by
      intro h e he
      simp [RNode.backrefs] at he
  | .backreference s r res, gs, t2 => by
      intro h e he
      simp only [RNode.resolveRefs] at h
      split at h
      · rename_i g hl
        simp only [RNode.backrefs, List.mem_singleton] at he
        subst he
        exact ⟨g, hl⟩
      · cases h
  | .capturingGroup s n refs cs, gs, t2 => by
      intro h e he
      simp only [RNode.resolveRefs] at h
      split at h
      · rename_i cs2 hcs
        simp only [RNode.backrefs] at he
        exact resolveRefs_ok_lookup_forest cs gs cs2 hcs e he
      · cases h
  | .branch s cs, gs, t2 => by
      intro h e he
      simp only [RNode.resolveRefs] at h
      split at h
      · rename_i cs2 hcs
        simp only [RNode.backrefs] at he
        exact resolveRefs_ok_lookup_forest cs gs cs2 hcs e he
      · cases h

theorem resolveRefs_ok_lookup_forest : ∀ (f : RForest)
    (gs : List (Nat × Option String)) (f2 : RForest),
    RForest.resolveRefs gs f = .ok f2 →
    ∀ e ∈ RForest.backrefs f, ∃ g, lookupRef gs e.2.1 = some g
  | .nil, gs, f2 => by
      intro h e he
      simp [RForest.backrefs] at he
  | .cons t rest, gs, f2 => by
      intro h e he
      simp only [RForest.resolveRefs] at h
      split at h
      · cases h
      · rename_i t2 ht
        split at h
        · cases h
        · rename_i rest2 hrest
          simp only [RForest.backrefs, List.mem_append] at he
          rcases he with he | he
          · exact resolveRefs_ok_lookup_node t gs t2 ht e he
          · exact resolveRefs_ok_lookup_forest rest gs rest2 hrest e he

end

/-- C1: for every Backreference node in a successfully resolved tree,
its `resolved` field is non-null and names a CapturingGroup of the same
pattern tree; and for every CapturingGroup, every entry of its
`references` list is a Backreference of the tree whose `resolved` field
is that very group. -/
theorem backref_resolution_bidirectional (t u : RNode) (h : resolve t = .ok u) :
    (∀ e ∈ RNode.backrefs u, ∃ g, e.2.2 = some g
        ∧ g ∈ (RNode.groups u).map (fun gr => gr.1))
    ∧ (∀ gr ∈ RNode.groups u, ∀ rid ∈ gr.2.2,
        ∃ r, (rid, r, some gr.1) ∈ RNode.backrefs u) := by
  unfold resolve at h
  split at h
  · rename_i t2 ht
    cases h
    constructor
    · intro e he
      rw [attachRefs_backrefs_node t2 (RNode.collectRefs t2)] at he
      rcases resolveRefs_ok_backrefs_node t (RNode.collectGroups t) t2 ht e he
        with ⟨g, hres, hlook⟩
      refine ⟨g, hres, ?_⟩
      rw [groups_map_fst_node, attachRefs_groupIds_node,
        resolveRefs_ok_groups_node t (RNode.collectGroups t) t2 ht]
      exact lookupRef_mem _ _ _ hlook
    · intro gr hgr rid hrid
      have hrefs := attachRefs_groups_node t2 (RNode.collectRefs t2) gr hgr
      rw [hrefs] at hrid
      rcases List.mem_map.mp hrid with ⟨pr, hpr, rfl⟩
      rcases List.mem_filter.mp hpr with ⟨hmem, hbeq⟩
      have hsnd : pr.2 = gr.1 := by
        simpa using hbeq
      rcases collectRefs_backrefs_node t2 pr hmem with ⟨r, hr⟩
      refine ⟨r, ?_⟩
      rw [attachRefs_backrefs_node t2 (RNode.collectRefs t2)]
      rw [hsnd] at hr
      exact hr
  · cases h

/-- The pattern of scenario B, `(?<n>a)\k<n>`, as a resolver tree: a
capturing group named n spanning source position 0 and a backreference
at position 8. -/
def groupRefSample : RNode :=
  .branch 0 (.cons (.capturingGroup 0 (some "n") [] (.cons (.leaf 6) .nil))
    (.cons (.backreference 8 (.name "n") none) .nil))

/-- The resolved tree of scenario B: the backreference's `resolved` is
group 0 and the group's `references` list is exactly that
backreference. -/
def groupRefResolved : RNode :=
  .branch 0 (.cons (.capturingGroup 0 (some "n") [8] (.cons (.leaf 6) .nil))
    (.cons (.backreference 8 (.name "n") (some 0)) .nil))

/-- Witness for C1: the resolver succeeds on scenario B and the
resulting tree satisfies both directions of the consistency property. -/
theorem backref_resolution_bidirectional_witness :
    (∀ e ∈ RNode.backrefs groupRefResolved, ∃ g, e.2.2 = some g
        ∧ g ∈ (RNode.groups groupRefResolved).map (fun gr => gr.1))
    ∧ (∀ gr ∈ RNode.groups groupRefResolved, ∀ rid ∈ gr.2.2,
        ∃ r, (rid, r, some gr.1) ∈ RNode.backrefs groupRefResolved) :=
  backref_resolution_bidirectional groupRefSample groupRefResolved rfl

/-- C8: for every pattern tree containing a backreference whose name or
number matches no capturing group anywhere in the tree, the resolver
fails with an UnresolvedReference error carrying the span start of an
unresolved reference, and no resolved tree is produced. -/
theorem unresolved_reference_failure (t : RNode)
    (h : ∃ e ∈ RNode.backrefs t, lookupRef (RNode.collectGroups t) e.2.1 = none) :
    ∃ e ∈ RNode.backrefs t,
      lookupRef (RNode.collectGroups t) e.2.1 = none
      ∧ resolve t = .error (.unresolvedReference e.1)
      ∧ ∀ u, resolve t ≠ .ok u := by
  rcases h with ⟨e0, he0, hl0⟩
  cases hr : RNode.resolveRefs (RNode.collectGroups t) t with
  | ok t2 =>
      rcases resolveRefs_ok_lookup_node t _ t2 hr e0 he0 with ⟨g, hg⟩
      rw [hl0] at hg
      cases hg
  | error err =>
      rcases resolveRefs_error_node t _ err hr with ⟨e, he, hl, herr⟩
      subst herr
      refine ⟨e, he, hl, ?_, ?_⟩
      · simp [resolve, hr]
      · intro u
        simp [resolve, hr]

/-- The pattern of scenario C, `\k<missing>`, as a resolver tree: one
backreference naming a group that exists nowhere. -/
def missingSample : RNode := .backreference 0 (.name "missing") none

/-- Witness for C8: scenario C fails with UnresolvedReference at the
backreference's span and yields no tree. -/
theorem unresolved_reference_failure_witness :
    ∃ e ∈ RNode.backrefs missingSample,
      lookupRef (RNode.collectGroups missingSample) e.2.1 = none
      ∧ resolve missingSample = .error (.unresolvedReference e.1)
      ∧ ∀ u, resolve missingSample ≠ .ok u :=
  unresolved_reference_failure missingSample (by decide)

end Regexpp
